import Mathlib

/-!
Verification of the tool-routing decision loop of the `lg-Add-Tools`
repository (files `main.py`, `main2.py`, `prebuilts-main.py`).

The embedding is shallow: LangChain messages become the `Message`
structure, the graph state (a dict with a `messages` key) becomes
`State`, tools become the `Tool` structure with an abstract `invoke`
function (the Tavily search call is an external collaborator; its result
and its JSON serialization are folded into the opaque result string),
and the Python functions `BasicToolNode.__call__`, `chatbot` and
`route_tools` become Lean functions.  Exceptions raised by the Python
code become `Except` errors.
-/

namespace LgAddTools

/-- Message roles: user input, model reply (`AIMessage`), or tool result
(`ToolMessage`). -/
inductive Role where
  | user
  | assistant
  | tool
  deriving DecidableEq, Repr

/-- One tool-call request carried by a model reply: tool name, argument
mapping (opaque serialized form), and call identifier.  Mirrors the
`tool_call` dicts iterated over in `BasicToolNode.__call__`. -/
structure ToolCall where
  name : String
  args : String
  id : String
  deriving DecidableEq, Repr

/-- One conversation turn.  `tool_calls = none` models a message object
that has no `tool_calls` attribute at all (Python `hasattr` is false,
e.g. a `HumanMessage` or `ToolMessage`); `some []` models an
`AIMessage` whose list of calls is empty.  `tool_call_id` is the
answered-call identifier of a `ToolMessage`; `name` is the tool name a
`ToolMessage` carries. -/
structure Message where
  role : Role
  content : String
  tool_calls : Option (List ToolCall) := none
  tool_call_id : Option String := none
  name : Option String := none
  deriving DecidableEq, Repr

/-- Graph state (`class State(TypedDict)`): the dict `{"messages": [...]}`.
An input dict lacking the `"messages"` key behaves as the empty list,
because the Python code reads it with `inputs.get("messages", [])`. -/
structure State where
  messages : List Message
  deriving DecidableEq, Repr

/-- LangGraph's termination sentinel `END` (the string `"__end__"`). -/
def END : String := "__end__"

/-- A registered tool: unique name plus an abstract synchronous
invocation function from serialized arguments to the serialized result
(`json.dumps(tool_result)` is folded into this opaque string, since the
underlying search tool is an external collaborator). -/
structure Tool where
  name : String
  invoke : String → String

/-- The tool node of `main.py` / `main2.py`, holding the list of tools it
was constructed from (`BasicToolNode.__init__`). -/
structure BasicToolNode where
  tools : List Tool

/-- The registry `self.tools_by_name = {tool.name: tool for tool in tools}`:
a Python dict comprehension keeps the last binding of a duplicated key,
so lookup returns the last tool in the list with the given name. -/
def BasicToolNode.tools_by_name (node : BasicToolNode) (n : String) : Option Tool :=
  (node.tools.filter (fun t => t.name == n)).getLast?

/-- Errors raised by the Python code.  `noMessage` is the
`ValueError("No message found in input")` of `BasicToolNode.__call__`;
`unknownTool` is the `KeyError` from `self.tools_by_name[tool_call["name"]]`
(the spec's `UnknownToolError`); `noToolCallsAttr` is the
`AttributeError` from `message.tool_calls` when the last message lacks
that attribute. -/
inductive ToolErr where
  | noMessage
  | unknownTool (n : String)
  | noToolCallsAttr
  deriving DecidableEq, Repr

/-- The loop body of `BasicToolNode.__call__`: for each tool call in
order, look the tool up by name (raising on an absent name before that
tool is invoked) and build a `ToolMessage` with the serialized result,
the tool name, and the originating call identifier. -/
def runCalls (node : BasicToolNode) : List ToolCall → Except ToolErr (List Message)
  | [] => .ok []
  | tc :: rest =>
    match node.tools_by_name tc.name with
    | none => .error (.unknownTool tc.name)
    | some t =>
      match runCalls node rest with
      | .error e => .error e
      | .ok outs =>
        .ok ({ role := .tool, content := t.invoke tc.args, tool_calls := none,
               tool_call_id := some tc.id, name := some tc.name } :: outs)

/-- `BasicToolNode.__call__` (identical in `main.py` lines 50–73 and
`main2.py` lines 31–47): raise if the messages list is empty or absent,
else run every tool call of the last message and return the list of
tool-result messages (`{"messages": outputs}`).  An exception anywhere
in the loop propagates and nothing is returned. -/
def BasicToolNode.call (node : BasicToolNode) (inputs : State) :
    Except ToolErr (List Message) :=
  match inputs.messages.getLast? with
  | none => .error .noMessage
  | some message =>
    match message.tool_calls with
    | none => .error .noToolCallsAttr
    | some tcs => runCalls node tcs

/-- The `chatbot` node (`main.py` lines 87–91, `prebuilts-main.py` lines
52–56): invoke the model client on the full message history and return a
one-element update.  The remote client `llm_with_tools.invoke` is an
external collaborator, passed in as the function `llm`. -/
def chatbot (llm : List Message → Message) (state : State) : List Message :=
  [llm state.messages]

/-- `route_tools` of `main.py` (lines 94–107): `END` when the state has no
messages, `"tools"` when the last message has a `tool_calls` attribute
of positive length, `END` otherwise. -/
def route_tools (state : State) : String :=
  match state.messages.getLast? with
  | none => END
  | some ai_message =>
    match ai_message.tool_calls with
    | none => END
    | some tcs => if 0 < tcs.length then "tools" else END

/-- The error of `main2.py`'s router on an empty state: the
`ValueError("No messages found in input state to tool_edge: ...")`,
called `EmptyStateError` in the spec's taxonomy. -/
inductive RouteErr where
  | emptyState
  deriving DecidableEq, Repr

/-- `route_tools` of `main2.py` (lines 64–77), on the dict-shaped state
the graph passes (the `isinstance(state, list)` branch is not taken for
a `State` dict): raise on an empty messages list, otherwise decide
exactly as `main.py` does from the last message's `tool_calls`. -/
def route_tools2 (state : State) : Except RouteErr String :=
  match state.messages.getLast? with
  | none => .error .emptyState
  | some ai_message =>
    match ai_message.tool_calls with
    | none => .ok END
    | some tcs => if 0 < tcs.length then .ok "tools" else .ok END

/-- The `add_messages` reducer annotating `State.messages`, in the case
exercised by this graph: every message produced by a node is a fresh
object with a fresh identity, and the reducer appends the update to the
existing history. -/
def add_messages (left right : List Message) : List Message :=
  left ++ right

/-- Folding one node update into the graph state via the `add_messages`
reducer. -/
def applyUpdate (s : State) (update : List Message) : State :=
  ⟨add_messages s.messages update⟩

/-- One pass through the `chatbot` node followed by the reducer. -/
def chatbotStep (llm : List Message → Message) (s : State) : State :=
  applyUpdate s (chatbot llm s)

/-- The states reachable by one run of the compiled graph
(`graph_builder`, `main.py` lines 110–132): a run starts from
`{"messages": [user message]}` (see `stream_graph_updates`), the edge
from `START` and from `"tools"` leads into `chatbot`, and the
conditional edge after `chatbot` enters the `tools` node exactly when
`route_tools` returns `"tools"`. -/
inductive Reach (llm : List Message → Message) (node : BasicToolNode) : State → Prop where
  | start (m : Message) : m.role = .user → m.tool_calls = none →
      Reach llm node ⟨[m]⟩
  | model {s : State} : Reach llm node s →
      Reach llm node (chatbotStep llm s)
  | tool {s : State} {outs : List Message} : Reach llm node s →
      route_tools s = "tools" → node.call s = .ok outs →
      Reach llm node (applyUpdate s outs)

/-- Call identifiers emitted by a message's tool-call requests. -/
def callIds (m : Message) : List String :=
  (m.tool_calls.getD []).map ToolCall.id

/-- The spec's conversation invariant: every tool-result message answers
a call identifier emitted by the nearest preceding assistant message. -/
def toolIdInv (msgs : List Message) : Prop :=
  ∀ i, (hi : i < msgs.length) → msgs[i].role = .tool →
    ∃ j, ∃ hj : j < msgs.length, j < i ∧ msgs[j].role = .assistant ∧
      (∀ k, (hk : k < msgs.length) → j < k → k < i → msgs[k].role ≠ .assistant) ∧
      ∃ cid, msgs[i].tool_call_id = some cid ∧ cid ∈ callIds msgs[j]

/-! ### Concrete sample data (used by witnesses) -/

/-- A concrete stand-in for the registered Tavily search tool: the name
`"tavily_search"` is the name `TavilySearch` registers under; the result
of the external search call is abstract, here the echoed query. -/
def tavily_search : Tool :=
  { name := "tavily_search", invoke := fun q => q }

/-- The tool node built from `tools = [tool]` in `main.py`. -/
def exNode : BasicToolNode := ⟨[tavily_search]⟩

/-- A tool node whose registry is empty (no registered tools). -/
def emptyNode : BasicToolNode := ⟨[]⟩

/-- A concrete tool-call request naming the registered search tool. -/
def exCall : ToolCall :=
  { name := "tavily_search", args := "weather in SF", id := "call_1" }

/-- A concrete user message (no `tool_calls` attribute). -/
def exUserMsg : Message := { role := .user, content := "weather in SF?" }

/-- A concrete assistant reply requesting one search call. -/
def exAiMsg : Message :=
  { role := .assistant, content := "", tool_calls := some [exCall] }

/-- A message that carries a non-empty `tool_calls` list but is not an
assistant message. -/
def exUserMsgWithCalls : Message :=
  { role := .user, content := "odd", tool_calls := some [exCall] }

/-- The tool-result message `exNode` produces for `exCall`. -/
def exToolMsg : Message :=
  { role := .tool, content := "weather in SF", tool_calls := none,
    tool_call_id := some "call_1", name := some "tavily_search" }

/-- A concrete model client: always replies with `exAiMsg`. -/
def exLlm : List Message → Message := fun _ => exAiMsg

/-! ### Helper lemmas about the tool-execution loop -/

theorem getLast?_spec (l : List Message) (a : Message) (h : l.getLast? = some a) :
    ∃ h2 : l.length - 1 < l.length, l[l.length - 1] = a := by
  have heq := List.getLast?_eq_getElem? l
  rw [h] at heq
  have h3 := heq.symm
  rw [List.getElem?_eq_some] at h3
  exact h3

theorem mem_of_getLast (l : List Message) (a : Message) (h : l.getLast? = some a) :
    a ∈ l := by
  obtain ⟨hne, rfl⟩ := List.mem_getLast?_eq_getLast (l := l) (x := a) h
  exact List.getLast_mem hne

theorem runCalls_ok_spec (node : BasicToolNode) :
    ∀ (tcs : List ToolCall) (outs : List Message), runCalls node tcs = .ok outs →
      outs.length = tcs.length ∧
        ∀ i, (h1 : i < outs.length) → (h2 : i < tcs.length) →
          outs[i].role = .tool ∧ outs[i].tool_calls = none ∧
          outs[i].tool_call_id = some tcs[i].id ∧ outs[i].name = some tcs[i].name
  | [], outs, h => by
    simp only [runCalls] at h
    cases h
    exact ⟨rfl, fun i h1 h2 => absurd h2 (by simp)⟩
  | tc :: rest, outs, h => by
    simp only [runCalls] at h
    cases hlook : node.tools_by_name tc.name with
    | none => rw [hlook] at h; cases h
    | some t =>
      rw [hlook] at h
      cases hrec : runCalls node rest with
      | error e => rw [hrec] at h; cases h
      | ok outs2 =>
        rw [hrec] at h
        cases h
        obtain ⟨hlen, hprops⟩ := runCalls_ok_spec node rest outs2 hrec
        refine ⟨by simp [hlen], ?_⟩
        intro i h1 h2
        cases i with
        | zero => exact ⟨rfl, rfl, rfl, rfl⟩
        | succ i2 =>
          simp only [List.getElem_cons_succ]
          exact hprops i2 (by simp at h1; omega) (by simp at h2; omega)

theorem runCalls_total (node : BasicToolNode) :
    ∀ tcs : List ToolCall, (∀ tc ∈ tcs, (node.tools_by_name tc.name).isSome) →
      ∃ outs, runCalls node tcs = .ok outs
  | [], _ => ⟨[], rfl⟩
  | tc :: rest, hreg => by
    obtain ⟨t, ht⟩ := Option.isSome_iff_exists.mp (hreg tc (by simp))
    obtain ⟨outs, houts⟩ :=
      runCalls_total node rest (fun tc2 h2 => hreg tc2 (by simp [h2]))
    exact ⟨{ role := .tool, content := t.invoke tc.args, tool_calls := none,
             tool_call_id := some tc.id, name := some tc.name } :: outs,
           by simp only [runCalls, ht, houts]⟩

theorem runCalls_unknown (node : BasicToolNode) :
    ∀ tcs : List ToolCall, (∃ tc ∈ tcs, node.tools_by_name tc.name = none) →
      ∃ n, runCalls node tcs = .error (.unknownTool n)
  | [], h => absurd h (by simp)
  | tc :: rest, h => by
    cases hlook : node.tools_by_name tc.name with
    | none => exact ⟨tc.name, by simp only [runCalls, hlook]⟩
    | some t =>
      have hrest : ∃ tc2 ∈ rest, node.tools_by_name tc2.name = none := by
        obtain ⟨tc2, hmem, hnone⟩ := h
        rcases List.mem_cons.mp hmem with rfl | hmem2
        · rw [hlook] at hnone; cases hnone
        · exact ⟨tc2, hmem2, hnone⟩
      obtain ⟨n, hn⟩ := runCalls_unknown node rest hrest
      exact ⟨n, by simp only [runCalls, hlook, hn]⟩

theorem route_tools_eq_tools {s : State} :
    route_tools s = "tools" ↔
      ∃ m tcs, s.messages.getLast? = some m ∧ m.tool_calls = some tcs ∧
        0 < tcs.length := by
  unfold route_tools
  cases hlast : s.messages.getLast? with
  | none => simp [END]
  | some m =>
    cases htc : m.tool_calls with
    | none => simp [END, htc]
    | some tcs =>
      by_cases hlen : 0 < tcs.length <;> simp [END, htc, hlen]

/-- Only assistant messages (model replies) carry a `tool_calls`
attribute in a run: user messages and tool-result messages have none. -/
def callsOnlyAssistant (msgs : List Message) : Prop :=
  ∀ m ∈ msgs, m.tool_calls ≠ none → m.role = .assistant

theorem toolIdInv_old_index (msgs ext : List Message) (hinv : toolIdInv msgs)
    (i : Nat) (hcase : i < msgs.length) (hi : i < (msgs ++ ext).length)
    (hrole : (msgs ++ ext)[i].role = .tool) :
    ∃ j, ∃ hj : j < (msgs ++ ext).length, j < i ∧
      (msgs ++ ext)[j].role = .assistant ∧
      (∀ k, (hk : k < (msgs ++ ext).length) → j < k → k < i →
        (msgs ++ ext)[k].role ≠ .assistant) ∧
      ∃ cid, (msgs ++ ext)[i].tool_call_id = some cid ∧
        cid ∈ callIds ((msgs ++ ext)[j]) := by
  have hgetI : (msgs ++ ext)[i] = msgs[i] := List.getElem_append_left hcase
  rw [hgetI] at hrole
  obtain ⟨j, hj, hji, hjrole, hmax, cid, hcid, hmem⟩ := hinv i hcase hrole
  have hj2 : j < (msgs ++ ext).length := by simp; omega
  have hgetJ : (msgs ++ ext)[j] = msgs[j] := List.getElem_append_left hj
  refine ⟨j, hj2, hji, ?_, ?_, cid, ?_, ?_⟩
  · rw [hgetJ]; exact hjrole
  · intro k hk hjk hki
    have hk2 : k < msgs.length := by omega
    rw [List.getElem_append_left hk2]
    exact hmax k hk2 hjk hki
  · rw [hgetI]; exact hcid
  · rw [hgetJ]; exact hmem

theorem toolIdInv_append_of_no_tool (msgs ext : List Message)
    (hinv : toolIdInv msgs) (hext : ∀ m ∈ ext, m.role ≠ .tool) :
    toolIdInv (msgs ++ ext) := by
  intro i hi hrole
  by_cases hcase : i < msgs.length
  · exact toolIdInv_old_index msgs ext hinv i hcase hi hrole
  · have hge : msgs.length ≤ i := by omega
    rw [List.getElem_append_right hge] at hrole
    exact absurd hrole (hext _ (List.getElem_mem _))

theorem toolIdInv_append_block (msgs outs : List Message) (m : Message)
    (hinv : toolIdInv msgs)
    (hlast : msgs.getLast? = some m) (hrole : m.role = .assistant)
    (houts : ∀ k, (hk : k < outs.length) → outs[k].role = .tool ∧
      ∃ cid, outs[k].tool_call_id = some cid ∧ cid ∈ callIds m) :
    toolIdInv (msgs ++ outs) := by
  obtain ⟨hlt, hgetlast⟩ := getLast?_spec msgs m hlast
  have hpos : 0 < msgs.length := by omega
  intro i hi hrolei
  by_cases hcase : i < msgs.length
  · exact toolIdInv_old_index msgs outs hinv i hcase hi hrolei
  · have hge : msgs.length ≤ i := by omega
    have hilen : i - msgs.length < outs.length := by simp at hi; omega
    have hgetI : (msgs ++ outs)[i] = outs.get ⟨i - msgs.length, hilen⟩ :=
      List.getElem_append_right hge
    have hj : msgs.length - 1 < (msgs ++ outs).length := by simp; omega
    have hgetJ : (msgs ++ outs)[msgs.length - 1] = m := by
      rw [List.getElem_append_left hlt]; exact hgetlast
    obtain ⟨hkrole, cid, hcid, hcmem⟩ := houts (i - msgs.length) hilen
    refine ⟨msgs.length - 1, hj, by omega, ?_, ?_, cid, ?_, ?_⟩
    · rw [hgetJ]; exact hrole
    · intro k hk hjk hki
      have hkge : msgs.length ≤ k := by omega
      have hklen : k - msgs.length < outs.length := by simp at hk; omega
      have hgetK : (msgs ++ outs)[k] = outs.get ⟨k - msgs.length, hklen⟩ :=
        List.getElem_append_right hkge
      rw [hgetK, show (outs.get ⟨k - msgs.length, hklen⟩).role = Role.tool from
        (houts (k - msgs.length) hklen).1]
      simp
    · rw [hgetI]; exact hcid
    · rw [hgetJ]; exact hcmem

/-- Combined run invariant: in every reachable state, only assistant
messages carry tool-call requests, and every tool-result message answers
a call identifier of the nearest preceding assistant message. -/
theorem reach_inv (llm : List Message → Message) (node : BasicToolNode)
    (hllm : ∀ ms, (llm ms).role = .assistant) (s : State)
    (h : Reach llm node s) :
    callsOnlyAssistant s.messages ∧ toolIdInv s.messages := by
  induction h with
  | start m hrole htc =>
    constructor
    · intro m2 hm2 hne
      simp at hm2
      subst hm2
      exact absurd htc hne
    · intro i hi hrolei
      simp at hi
      subst hi
      simp at hrolei
      rw [hrole] at hrolei
      cases hrolei
  | @model s2 hs ih =>
    obtain ⟨ihA, ihI⟩ := ih
    simp only [chatbotStep, applyUpdate, add_messages, chatbot]
    constructor
    · intro m2 hm2 hne
      rcases List.mem_append.mp hm2 with h1 | h2
      · exact ihA m2 h1 hne
      · simp at h2
        subst h2
        exact hllm _
    · refine toolIdInv_append_of_no_tool _ _ ihI ?_
      intro m2 hm2
      simp at hm2
      subst hm2
      rw [hllm]
      simp
  | @tool s2 outs hs hroute hcall ih =>
    obtain ⟨ihA, ihI⟩ := ih
    obtain ⟨m, tcs, hlast, htcs, hlen⟩ := route_tools_eq_tools.mp hroute
    have hcall2 : runCalls node tcs = .ok outs := by
      unfold BasicToolNode.call at hcall
      simp only [hlast, htcs] at hcall
      exact hcall
    obtain ⟨hlen2, hprops⟩ := runCalls_ok_spec node tcs outs hcall2
    have hmrole : m.role = .assistant := by
      refine ihA m (mem_of_getLast _ _ hlast) ?_
      rw [htcs]
      simp
    simp only [applyUpdate, add_messages]
    constructor
    · intro m2 hm2 hne
      rcases List.mem_append.mp hm2 with h1 | h2
      · exact ihA m2 h1 hne
      · obtain ⟨k, hk, rfl⟩ := List.mem_iff_getElem.mp h2
        exact absurd (hprops k hk (by omega)).2.1 hne
    · refine toolIdInv_append_block _ _ m ihI hlast hmrole ?_
      intro k hk
      refine ⟨(hprops k hk (by omega)).1, (tcs.get ⟨k, by omega⟩).id,
        (hprops k hk (by omega)).2.2.1, ?_⟩
      rw [callIds, htcs]
      exact List.mem_map_of_mem ToolCall.id (List.getElem_mem _)

/-! ### Claim theorems -/

/-- C1: for every conversation whose last message is an assistant message
with N tool-call requests, all naming registered tools, one invocation of
the Tool Step (`BasicToolNode.__call__`) returns exactly N tool-result
messages, and for every i the i-th result's answered-call identifier
equals the i-th request's identifier, in request order. -/
theorem C1_tool_step_one_result_per_call (node : BasicToolNode) (s : State)
    (m : Message) (tcs : List ToolCall)
    (hlast : s.messages.getLast? = some m) (hrole : m.role = .assistant)
    (htc : m.tool_calls = some tcs)
    (hreg : ∀ tc ∈ tcs, (node.tools_by_name tc.name).isSome) :
    ∃ outs, node.call s = .ok outs ∧ outs.length = tcs.length ∧
      ∀ i, (h1 : i < outs.length) → (h2 : i < tcs.length) →
        outs[i].role = .tool ∧ outs[i].tool_call_id = some tcs[i].id := by
  obtain ⟨outs, houts⟩ := runCalls_total node tcs hreg
  obtain ⟨hlen, hprops⟩ := runCalls_ok_spec node tcs outs houts
  refine ⟨outs, ?_, hlen,
    fun i h1 h2 => ⟨(hprops i h1 h2).1, (hprops i h1 h2).2.2.1⟩⟩
  unfold BasicToolNode.call
  simp only [hlast, htc]
  exact houts

/-- Witness for C1: a concrete conversation ending in an assistant
message with one registered search call. -/
theorem C1_witness :
    ∃ outs, exNode.call ⟨[exUserMsg, exAiMsg]⟩ = .ok outs ∧
      outs.length = [exCall].length ∧
      ∀ i, (h1 : i < outs.length) → (h2 : i < [exCall].length) →
        outs[i].role = .tool ∧ outs[i].tool_call_id = some (([exCall])[i]).id :=
  C1_tool_step_one_result_per_call exNode ⟨[exUserMsg, exAiMsg]⟩ exAiMsg [exCall]
    rfl rfl rfl (by decide)

/-- C2: for every conversation state whose last message is an assistant
message carrying one or more tool-call requests, both routers
(`route_tools` of `main.py` and of `main2.py`) select the Tool Step. -/
theorem C2_router_selects_tools (s : State) (m : Message) (tcs : List ToolCall)
    (hlast : s.messages.getLast? = some m) (hrole : m.role = .assistant)
    (htc : m.tool_calls = some tcs) (hne : tcs ≠ []) :
    route_tools s = "tools" ∧ route_tools2 s = .ok "tools" := by
  have hlen : 0 < tcs.length := List.length_pos.mpr hne
  unfold route_tools route_tools2
  simp only [hlast, htc]
  simp [hlen]

/-- Witness for C2: a concrete conversation ending in an assistant
message with one tool call. -/
theorem C2_witness :
    route_tools ⟨[exUserMsg, exAiMsg]⟩ = "tools" ∧
    route_tools2 ⟨[exUserMsg, exAiMsg]⟩ = .ok "tools" :=
  C2_router_selects_tools ⟨[exUserMsg, exAiMsg]⟩ exAiMsg [exCall] rfl rfl rfl
    (by simp)

/-- C3 counterexample: the claim asserts the Router returns END on an
empty conversation, but `main2.py`'s `route_tools` (cited by the claim)
raises its `ValueError` there instead of returning END. -/
theorem C3_counterexample : route_tools2 ⟨[]⟩ ≠ Except.ok END := by
  simp [route_tools2]

/-- C3 amended: a last message with zero tool-call requests (or no
`tool_calls` attribute) routes to END under both routers; an empty
conversation routes to END under `main.py`'s `route_tools` but raises
under `main2.py`'s. -/
theorem C3_amended_zero_calls_route_end (s : State) :
    (∀ m, s.messages.getLast? = some m →
      m.tool_calls = none ∨ m.tool_calls = some [] →
      route_tools s = END ∧ route_tools2 s = .ok END) ∧
    (s.messages = [] →
      route_tools s = END ∧ route_tools2 s = .error .emptyState) := by
  constructor
  · intro m hlast hcase
    unfold route_tools route_tools2
    simp only [hlast]
    rcases hcase with h | h <;> simp [h]
  · intro hnil
    unfold route_tools route_tools2
    simp [hnil]

/-- Witness for C3 (amended): a user-only conversation and the empty
conversation. -/
theorem C3_witness :
    (route_tools ⟨[exUserMsg]⟩ = END ∧ route_tools2 ⟨[exUserMsg]⟩ = .ok END) ∧
    (route_tools ⟨[]⟩ = END ∧ route_tools2 ⟨[]⟩ = .error .emptyState) :=
  ⟨(C3_amended_zero_calls_route_end ⟨[exUserMsg]⟩).1 exUserMsg rfl (Or.inl rfl),
   (C3_amended_zero_calls_route_end ⟨[]⟩).2 rfl⟩

/-- C4: when the last message contains a tool-call request naming a tool
absent from the registry, the Tool Step raises the unknown-tool error
(Python `KeyError`, the spec's `UnknownToolError`) and returns no update:
no tool-result message is produced. -/
theorem C4_unknown_tool_raises (node : BasicToolNode) (s : State) (m : Message)
    (tcs : List ToolCall) (hlast : s.messages.getLast? = some m)
    (htc : m.tool_calls = some tcs)
    (hbad : ∃ tc ∈ tcs, node.tools_by_name tc.name = none) :
    (∃ n, node.call s = .error (.unknownTool n)) ∧
    ∀ outs, node.call s ≠ .ok outs := by
  obtain ⟨n, hn⟩ := runCalls_unknown node tcs hbad
  have hcall : node.call s = .error (.unknownTool n) := by
    unfold BasicToolNode.call
    simp only [hlast, htc]
    exact hn
  exact ⟨⟨n, hcall⟩, fun outs h => by rw [hcall] at h; cases h⟩

/-- Witness for C4: a registry with no tools and an assistant message
requesting the search tool. -/
theorem C4_witness :
    (∃ n, emptyNode.call ⟨[exAiMsg]⟩ = .error (.unknownTool n)) ∧
    ∀ outs, emptyNode.call ⟨[exAiMsg]⟩ ≠ .ok outs :=
  C4_unknown_tool_raises emptyNode ⟨[exAiMsg]⟩ exAiMsg [exCall] rfl rfl
    ⟨exCall, by simp, rfl⟩

/-- C5 counterexample: the claim asserts the Router raises
`EmptyStateError` on a conversation with no messages, but `main.py`'s
`route_tools` (cited by the claim) returns END normally on the empty
state — it raises nothing. -/
theorem C5_counterexample : route_tools ⟨[]⟩ = END := rfl

/-- C5 amended: on a conversation with no messages, `main2.py`'s
`route_tools` raises its `ValueError` (the spec's `EmptyStateError`),
while `main.py`'s `route_tools` instead returns END. -/
theorem C5_amended_empty_state (s : State) (hnil : s.messages = []) :
    route_tools2 s = .error .emptyState ∧ route_tools s = END := by
  unfold route_tools route_tools2
  simp [hnil]

/-- Witness for C5 (amended): the empty conversation. -/
theorem C5_witness :
    route_tools2 ⟨[]⟩ = .error .emptyState ∧ route_tools ⟨[]⟩ = END :=
  C5_amended_empty_state ⟨[]⟩ rfl

/-- C6: one invocation of the Model Step (`chatbot`) passes the entire
message history to the model client and its update contains exactly one
new message, appended to the history. -/
theorem C6_model_step_full_history (llm : List Message → Message) (s : State) :
    chatbot llm s = [llm s.messages] ∧ (chatbot llm s).length = 1 ∧
    (chatbotStep llm s).messages = s.messages ++ [llm s.messages] :=
  ⟨rfl, rfl, rfl⟩

/-- C7: a Model Step, then a successful Tool Step, then another Model
Step each only append: every message present before each step is kept
unmodified in its original position (witnessed by the old history being
a prefix of the new one). -/
theorem C7_append_only (llm1 llm2 : List Message → Message)
    (node : BasicToolNode) (s0 : State) (outs : List Message)
    (hok : node.call (chatbotStep llm1 s0) = .ok outs) :
    (∃ t1, (chatbotStep llm1 s0).messages = s0.messages ++ t1) ∧
    (∃ t2, (applyUpdate (chatbotStep llm1 s0) outs).messages =
      (chatbotStep llm1 s0).messages ++ t2) ∧
    (∃ t3, (chatbotStep llm2 (applyUpdate (chatbotStep llm1 s0) outs)).messages =
      (applyUpdate (chatbotStep llm1 s0) outs).messages ++ t3) ∧
    (∃ t4, (chatbotStep llm2 (applyUpdate (chatbotStep llm1 s0) outs)).messages =
      s0.messages ++ t4) := by
  refine ⟨⟨_, rfl⟩, ⟨_, rfl⟩, ⟨_, rfl⟩,
    ⟨[llm1 s0.messages] ++ outs ++
      [llm2 (s0.messages ++ [llm1 s0.messages] ++ outs)], ?_⟩⟩
  simp [chatbotStep, applyUpdate, add_messages, chatbot]

/-- Witness for C7: the concrete search round trip. -/
theorem C7_witness :
    (∃ t1, (chatbotStep exLlm ⟨[exUserMsg]⟩).messages = [exUserMsg] ++ t1) ∧
    (∃ t2, (applyUpdate (chatbotStep exLlm ⟨[exUserMsg]⟩) [exToolMsg]).messages =
      (chatbotStep exLlm ⟨[exUserMsg]⟩).messages ++ t2) ∧
    (∃ t3, (chatbotStep exLlm
        (applyUpdate (chatbotStep exLlm ⟨[exUserMsg]⟩) [exToolMsg])).messages =
      (applyUpdate (chatbotStep exLlm ⟨[exUserMsg]⟩) [exToolMsg]).messages ++ t3) ∧
    (∃ t4, (chatbotStep exLlm
        (applyUpdate (chatbotStep exLlm ⟨[exUserMsg]⟩) [exToolMsg])).messages =
      [exUserMsg] ++ t4) :=
  C7_append_only exLlm exLlm exNode ⟨[exUserMsg]⟩ [exToolMsg] rfl

/-- C8: in every conversation reachable by the run loop (graph runs
seeded with a user message, assuming the external model client returns
assistant messages), every tool-result message's answered-call
identifier equals a call identifier emitted by the immediately preceding
assistant message. -/
theorem C8_tool_results_answer_last_assistant (llm : List Message → Message)
    (node : BasicToolNode) (s : State)
    (hllm : ∀ ms, (llm ms).role = .assistant) (h : Reach llm node s) :
    toolIdInv s.messages :=
  (reach_inv llm node hllm s h).2

/-- Witness for C8: the state reached by start, one Model Step and one
Tool Step with the concrete search call. -/
theorem C8_witness :
    toolIdInv (applyUpdate (chatbotStep exLlm ⟨[exUserMsg]⟩) [exToolMsg]).messages :=
  C8_tool_results_answer_last_assistant exLlm exNode
    (applyUpdate (chatbotStep exLlm ⟨[exUserMsg]⟩) [exToolMsg])
    (fun _ => rfl)
    (Reach.tool (Reach.model (Reach.start exUserMsg rfl rfl)) rfl rfl)

/-- C9: on an input state whose messages list is empty (or whose
`messages` key is absent, which `inputs.get` reads as the empty list),
the Tool Step raises the `ValueError("No message found in input")` and
produces no tool-result message. -/
theorem C9_tool_step_empty_raises (node : BasicToolNode) :
    node.call ⟨[]⟩ = .error .noMessage := rfl

/-- C10: the Router ignores the role of the last message: its decision
depends only on the presence and length of `tool_calls` — any last
message exposing a non-empty `tool_calls` list routes to `"tools"`
whatever its role, and any last message lacking the attribute routes to
END. -/
theorem C10_router_ignores_role (s1 s2 : State) (m1 m2 : Message)
    (h1 : s1.messages.getLast? = some m1) (h2 : s2.messages.getLast? = some m2)
    (heq : m1.tool_calls = m2.tool_calls) :
    route_tools s1 = route_tools s2 ∧ route_tools2 s1 = route_tools2 s2 ∧
    (∀ tcs, m1.tool_calls = some tcs → 0 < tcs.length →
      route_tools s1 = "tools") ∧
    (m1.tool_calls = none → route_tools s1 = END) := by
  unfold route_tools route_tools2
  simp only [h1, h2, ← heq]
  refine ⟨trivial, trivial, ?_, ?_⟩
  · intro tcs htcs hlen
    simp [htcs, hlen]
  · intro hnone
    simp [hnone]

/-- Witness for C10: the same non-empty call list carried by a user-role
message and by an assistant message routes identically, to `"tools"`. -/
theorem C10_witness :
    route_tools ⟨[exUserMsgWithCalls]⟩ = route_tools ⟨[exAiMsg]⟩ ∧
    route_tools ⟨[exUserMsgWithCalls]⟩ = "tools" :=
  ⟨(C10_router_ignores_role ⟨[exUserMsgWithCalls]⟩ ⟨[exAiMsg]⟩
      exUserMsgWithCalls exAiMsg rfl rfl rfl).1,
   (C10_router_ignores_role ⟨[exUserMsgWithCalls]⟩ ⟨[exAiMsg]⟩
      exUserMsgWithCalls exAiMsg rfl rfl rfl).2.2.1 [exCall] rfl (by simp)⟩

end LgAddTools
